import Mathlib

/-!
# Leave Lifecycle & Balance Engine — a shallow embedding

This development models the core of the employee leave tracker: the PTO
balance ledger, the leave-request state machine, and the authorization
resolver, as implemented in `server/routes.ts` and `server/storage.ts`.
Database tables become lists of records, route handlers become pure state
transformers returning the next state together with an HTTP-level outcome.
Machine integers (JS numbers holding day counts and credit balances) are
modelled as `Int`; dates are modelled by their millisecond timestamps.
-/

/-- Roles from the `user_role` enum in `shared/schema.ts`. -/
inductive Role where
  | employee
  | manager
  | hr
  | admin
  | top_management
deriving DecidableEq, Repr

/-- Statuses from the `leave_status` enum in `shared/schema.ts`. -/
inductive LeaveStatus where
  | pending
  | approved
  | rejected
  | cancelled
deriving DecidableEq, Repr

/-- Error outcomes the modelled route handlers can produce (HTTP 404 NotFound,
403 Forbidden, 400 for a non-pending request = InvalidState, 400 for a failed
input validation = ValidationError). -/
inductive ApiError where
  | NotFound
  | Forbidden
  | InvalidState
  | ValidationError
deriving DecidableEq, Repr

/-- A row of the `users` table (fields relevant to the core workflow). -/
structure User where
  id : String
  role : Role
  department : String
deriving DecidableEq, Repr

/-- A row of the `pto_credits` table. -/
structure PtoCredits where
  userId : String
  totalCredits : Int
  usedCredits : Int
  lwopDays : Int
deriving DecidableEq, Repr

/-- A row of the `leave_requests` table (timestamps other than the request
dates are omitted; they carry no workflow logic). -/
structure LeaveRequest where
  id : String
  userId : String
  leaveType : String
  department : String
  startDate : Int
  endDate : Int
  totalDays : Int
  reason : String
  status : LeaveStatus
  isLwop : Bool
  approverId : Option String
  approverRemarks : Option String
deriving DecidableEq, Repr

/-- A row of the `department_approvers` table. -/
structure DepartmentApprover where
  department : String
  approverUserId : String
deriving DecidableEq, Repr

/-- A row of the `approval_logs` audit table. -/
structure ApprovalLog where
  leaveRequestId : String
  actionBy : String
  action : String
  previousStatus : Option LeaveStatus
  newStatus : Option LeaveStatus
  remarks : Option String
  ptoDeducted : Option Int
  isLwop : Bool
deriving DecidableEq, Repr

/-- The database state visible to the core workflow. Lists model tables;
`logs` is kept newest-first, matching the `DESC createdAt` read order. -/
structure AppState where
  users : List User
  credits : List PtoCredits
  requests : List LeaveRequest
  approvers : List DepartmentApprover
  logs : List ApprovalLog
deriving DecidableEq, Repr

/-- `DatabaseStorage.getUser`: first row whose id matches. -/
def getUser (s : AppState) (id : String) : Option User :=
  s.users.find? (fun u => u.id == id)

/-- `DatabaseStorage.getPtoCredits`: first credits row for the user. -/
def getPtoCredits (s : AppState) (userId : String) : Option PtoCredits :=
  s.credits.find? (fun c => c.userId == userId)

/-- `DatabaseStorage.updatePtoCredits`: set `usedCredits`/`lwopDays` on every
credits row matching the user id. -/
def updatePtoCredits (s : AppState) (userId : String) (usedCredits lwopDays : Int) : AppState :=
  { s with credits := s.credits.map (fun c =>
      if c.userId == userId then
        { c with usedCredits := usedCredits, lwopDays := lwopDays }
      else c) }

/-- `DatabaseStorage.getLeaveRequest` (and the request part of
`getLeaveRequestWithUser`): first row whose id matches. -/
def getLeaveRequest (s : AppState) (id : String) : Option LeaveRequest :=
  s.requests.find? (fun r => r.id == id)

/-- `DatabaseStorage.updateLeaveRequestStatus`: set status, approver and
remarks on every request row matching the id. -/
def updateLeaveRequestStatus (s : AppState) (id : String) (status : LeaveStatus)
    (approverId : String) (remarks : Option String) : AppState :=
  { s with requests := s.requests.map (fun r =>
      if r.id == id then
        { r with status := status, approverId := some approverId, approverRemarks := remarks }
      else r) }

/-- `DatabaseStorage.createApprovalLog`: append an audit row (kept
newest-first). -/
def createApprovalLog (s : AppState) (log : ApprovalLog) : AppState :=
  { s with logs := log :: s.logs }

/-- `DatabaseStorage.getDepartmentApprover`: first approver row for the
department, defined only when the referenced approver user exists. -/
def getDepartmentApprover (s : AppState) (department : String) : Option DepartmentApprover :=
  match s.approvers.find? (fun a => a.department == department) with
  | none => none
  | some a => if (getUser s a.approverUserId).isSome then some a else none

/-- `DatabaseStorage.getAllDepartmentApprovers`: all approver rows whose
referenced user exists. -/
def getAllDepartmentApprovers (s : AppState) : List DepartmentApprover :=
  s.approvers.filter (fun a => (getUser s a.approverUserId).isSome)

/-- `DatabaseStorage.getPendingLeaveRequests`: pending requests, optionally
restricted to one department. -/
def getPendingLeaveRequests (s : AppState) (department : Option String) : List LeaveRequest :=
  match department with
  | some d => s.requests.filter (fun r => r.status = LeaveStatus.pending ∧ r.department == d)
  | none => s.requests.filter (fun r => r.status = LeaveStatus.pending)

/-- Role of the session user, `user?.role` in the handlers. -/
def roleOf (s : AppState) (actorId : String) : Option Role :=
  (getUser s actorId).map (fun u => u.role)

/-- `userRole === "hr" || userRole === "admin"` in the approve/reject
handlers. -/
def isHrOrAdmin (s : AppState) (actorId : String) : Bool :=
  match roleOf s actorId with
  | some Role.hr => true
  | some Role.admin => true
  | _ => false

/-- `departmentApprover?.approverUserId === userId` in the approve/reject
handlers. -/
def isDesignatedApprover (s : AppState) (department actorId : String) : Bool :=
  match getDepartmentApprover s department with
  | some a => a.approverUserId == actorId
  | none => false

/-- `!remarks` in the approve handler: the remarks field is absent or the
empty string (the only falsy strings in JS). -/
def remarksMissing : Option String → Bool
  | none => true
  | some t => t == ""

/-- Milliseconds per day, the `1000 * 60 * 60 * 24` of the filing handler. -/
def msPerDay : Int := 86400000

/-- `Math.ceil(a / b)` for a positive integer divisor `b`. -/
def ceilDiv (a b : Int) : Int :=
  (a + b - 1) / b

/-- `totalDays` as computed by the `POST /api/leave-requests` handler:
`Math.ceil((endDate - startDate) / msPerDay) + 1`. -/
def computeTotalDays (startMs endMs : Int) : Int :=
  ceilDiv (endMs - startMs) msPerDay + 1

/-- The `POST /api/leave-requests` handler. Validation mirrors
`insertLeaveRequestSchema` (reason at least 10 characters; the date strings
are accepted unchecked), then the requester is loaded with their credits,
`totalDays` and the `isLwop` prediction are computed, the request row is
inserted and a "Filed leave request" audit row is appended. `newId` stands
for the database-generated request id. -/
def createLeaveRequest (s : AppState) (userId leaveType department : String)
    (startMs endMs : Int) (reason : String) (newId : String) :
    AppState × Except ApiError Unit :=
  if reason.length < 10 then
    (s, Except.error ApiError.ValidationError)
  else
    match getUser s userId with
    | none => (s, Except.error ApiError.NotFound)
    | some _ =>
      let credits := getPtoCredits s userId
      let totalDays := computeTotalDays startMs endMs
      let remaining :=
        ((credits.map (fun c => c.totalCredits)).getD 5)
          - ((credits.map (fun c => c.usedCredits)).getD 0)
      let isLwop : Bool := decide (remaining < totalDays)
      let request : LeaveRequest :=
        { id := newId, userId := userId, leaveType := leaveType,
          department := department, startDate := startMs, endDate := endMs,
          totalDays := totalDays, reason := reason,
          status := LeaveStatus.pending, isLwop := isLwop,
          approverId := none, approverRemarks := none }
      let s1 : AppState := { s with requests := s.requests ++ [request] }
      let s2 := createApprovalLog s1
        { leaveRequestId := newId, actionBy := userId,
          action := "Filed leave request", previousStatus := none,
          newStatus := some LeaveStatus.pending, remarks := none,
          ptoDeducted := none, isLwop := isLwop }
      (s2, Except.ok ())

/-- The audit action text written by the approve handler. -/
def approveAuditAction (ptoUsed lwopUsed : Int) (isLwop : Bool) : String :=
  if isLwop then
    "Approved LWOP request (PTO: " ++ toString ptoUsed ++ " days, LWOP: "
      ++ toString lwopUsed ++ " days)"
  else
    "Approved leave request (PTO: " ++ toString ptoUsed ++ " days)"

/-- The `PATCH /api/leave-requests/:id/approve` handler: NotFound, Forbidden,
InvalidState and ValidationError guards in source order, then the PTO/LWOP
deduction (skipped entirely when the requester has no credits row), the
status update, and the audit row with `ptoDeducted`. -/
def approveLeaveRequest (s : AppState) (requestId actorId : String)
    (remarks : Option String) : AppState × Except ApiError Unit :=
  match getLeaveRequest s requestId with
  | none => (s, Except.error ApiError.NotFound)
  | some leaveRequest =>
    if !(isHrOrAdmin s actorId || isDesignatedApprover s leaveRequest.department actorId) then
      (s, Except.error ApiError.Forbidden)
    else if leaveRequest.status ≠ LeaveStatus.pending then
      (s, Except.error ApiError.InvalidState)
    else if leaveRequest.isLwop && remarksMissing remarks then
      (s, Except.error ApiError.ValidationError)
    else
      let deduction : AppState × Int × Int :=
        match getPtoCredits s leaveRequest.userId with
        | some userCredits =>
          if leaveRequest.isLwop then
            let remaining := userCredits.totalCredits - userCredits.usedCredits
            let ptoUsed := min remaining leaveRequest.totalDays
            let lwopUsed := leaveRequest.totalDays - ptoUsed
            (updatePtoCredits s leaveRequest.userId
              (userCredits.usedCredits + ptoUsed) (userCredits.lwopDays + lwopUsed),
             ptoUsed, lwopUsed)
          else
            let ptoUsed := leaveRequest.totalDays
            (updatePtoCredits s leaveRequest.userId
              (userCredits.usedCredits + ptoUsed) userCredits.lwopDays,
             ptoUsed, 0)
        | none => (s, 0, 0)
      let s1 := deduction.1
      let ptoUsed := deduction.2.1
      let lwopUsed := deduction.2.2
      let s2 := updateLeaveRequestStatus s1 requestId LeaveStatus.approved actorId remarks
      let s3 := createApprovalLog s2
        { leaveRequestId := requestId, actionBy := actorId,
          action := approveAuditAction ptoUsed lwopUsed leaveRequest.isLwop,
          previousStatus := some LeaveStatus.pending,
          newStatus := some LeaveStatus.approved,
          remarks := remarks, ptoDeducted := some ptoUsed,
          isLwop := leaveRequest.isLwop }
      (s3, Except.ok ())

/-- The `PATCH /api/leave-requests/:id/reject` handler: same NotFound,
Forbidden and InvalidState guards, no balance mutation, status update and
audit row. -/
def rejectLeaveRequest (s : AppState) (requestId actorId : String)
    (remarks : Option String) : AppState × Except ApiError Unit :=
  match getLeaveRequest s requestId with
  | none => (s, Except.error ApiError.NotFound)
  | some leaveRequest =>
    if !(isHrOrAdmin s actorId || isDesignatedApprover s leaveRequest.department actorId) then
      (s, Except.error ApiError.Forbidden)
    else if leaveRequest.status ≠ LeaveStatus.pending then
      (s, Except.error ApiError.InvalidState)
    else
      let s1 := updateLeaveRequestStatus s requestId LeaveStatus.rejected actorId remarks
      let s2 := createApprovalLog s1
        { leaveRequestId := requestId, actionBy := actorId,
          action := "Rejected leave request",
          previousStatus := some LeaveStatus.pending,
          newStatus := some LeaveStatus.rejected,
          remarks := remarks, ptoDeducted := none, isLwop := false }
      (s2, Except.ok ())

/-- The `GET /api/leave-requests/pending` handler: HR/admin see every pending
request; anyone else sees the pending requests of the departments for which
they hold a `department_approvers` row. -/
def getPendingRequests (s : AppState) (actorId : String) : List LeaveRequest :=
  match roleOf s actorId with
  | some Role.hr => getPendingLeaveRequests s none
  | some Role.admin => getPendingLeaveRequests s none
  | _ =>
    let assignedDepartments :=
      ((getAllDepartmentApprovers s).filter (fun a => a.approverUserId == actorId)).map
        (fun a => a.department)
    (assignedDepartments.map (fun d => getPendingLeaveRequests s (some d))).flatten

/-! ## Workflow operation sequences

`Op` packages the three state-changing core operations so that claims about
"any sequence of filings and approvals" can quantify over `List Op`. -/

/-- A single invocation of one of the three state-changing endpoints. -/
inductive Op where
  | file (userId leaveType department : String) (startMs endMs : Int) (reason newId : String)
  | approve (requestId actorId : String) (remarks : Option String)
  | reject (requestId actorId : String) (remarks : Option String)
deriving DecidableEq, Repr

/-- Execute one operation, keeping the next state and dropping the HTTP
response. -/
def step (s : AppState) : Op → AppState
  | Op.file u t d a b reason i => (createLeaveRequest s u t d a b reason i).1
  | Op.approve rid a rem => (approveLeaveRequest s rid a rem).1
  | Op.reject rid a rem => (rejectLeaveRequest s rid a rem).1

/-- Execute a sequence of operations. -/
def run (s : AppState) (ops : List Op) : AppState :=
  ops.foldl step s

/-- A well-formed call: a filing's dates satisfy the spec precondition
`endDate >= startDate`; approvals and rejections are unrestricted. -/
def wfOp : Op → Prop
  | Op.file _ _ _ a b _ _ => a ≤ b
  | Op.approve _ _ _ => True
  | Op.reject _ _ _ => True

/-- Every credits row has nonnegative allotment, usage and LWOP days. -/
def CreditsOk (s : AppState) : Prop :=
  ∀ c ∈ s.credits, 0 ≤ c.totalCredits ∧ 0 ≤ c.usedCredits ∧ 0 ≤ c.lwopDays

/-- Every request row records a nonnegative day count. -/
def RequestsOk (s : AppState) : Prop :=
  ∀ r ∈ s.requests, 0 ≤ r.totalDays

/-- The inductive invariant actually maintained by the workflow. -/
def BalanceInv (s : AppState) : Prop :=
  CreditsOk s ∧ RequestsOk s

/-! ## Helper lemmas -/

theorem totalDays_pos (a b : Int) (h : a ≤ b) : 0 < computeTotalDays a b := by
  simp only [computeTotalDays, ceilDiv, msPerDay]
  omega

theorem totalDays_of_whole_days (a b k : Int) (hk : 0 ≤ k) (h : b - a = k * msPerDay) :
    computeTotalDays a b = k + 1 := by
  simp only [computeTotalDays, ceilDiv, msPerDay] at *
  omega

theorem credits_createApprovalLog (s : AppState) (l : ApprovalLog) :
    (createApprovalLog s l).credits = s.credits := rfl

theorem credits_updateLeaveRequestStatus (s : AppState) (id : String) (st : LeaveStatus)
    (a : String) (rem : Option String) :
    (updateLeaveRequestStatus s id st a rem).credits = s.credits := rfl

theorem requests_createApprovalLog (s : AppState) (l : ApprovalLog) :
    (createApprovalLog s l).requests = s.requests := rfl

theorem requests_updatePtoCredits (s : AppState) (u : String) (U L : Int) :
    (updatePtoCredits s u U L).requests = s.requests := rfl

theorem logs_createApprovalLog (s : AppState) (l : ApprovalLog) :
    (createApprovalLog s l).logs = l :: s.logs := rfl

/-- Updating a user's credits rewrites exactly the row that a lookup finds. -/
theorem getPtoCredits_updatePtoCredits (s : AppState) (u : String) (U L : Int)
    (c : PtoCredits) (h : getPtoCredits s u = some c) :
    getPtoCredits (updatePtoCredits s u U L) u =
      some { c with usedCredits := U, lwopDays := L } := by
  have hc : (c.userId == u) = true :=
    List.find?_some (p := fun x : PtoCredits => x.userId == u) h
  have hpf : ((fun x : PtoCredits => x.userId == u) ∘
      (fun x : PtoCredits => if x.userId == u then { x with usedCredits := U, lwopDays := L } else x))
      = fun x : PtoCredits => x.userId == u := by
    funext x
    by_cases hx : (x.userId == u) = true
    · simp only [Function.comp_apply, if_pos hx]
    · simp only [Function.comp_apply, if_neg hx]
  simp only [getPtoCredits, updatePtoCredits] at h ⊢
  rw [List.find?_map, hpf, h]
  simp only [Option.map_some', if_pos hc]

/-- Updating a request's status rewrites exactly the row that a lookup finds. -/
theorem getLeaveRequest_updateLeaveRequestStatus (s : AppState) (id : String)
    (st : LeaveStatus) (a : String) (rem : Option String) (r : LeaveRequest)
    (h : getLeaveRequest s id = some r) :
    getLeaveRequest (updateLeaveRequestStatus s id st a rem) id =
      some { r with status := st, approverId := some a, approverRemarks := rem } := by
  have hr : (r.id == id) = true :=
    List.find?_some (p := fun x : LeaveRequest => x.id == id) h
  have hpf : ((fun x : LeaveRequest => x.id == id) ∘
      (fun x : LeaveRequest => if x.id == id then
        { x with status := st, approverId := some a, approverRemarks := rem } else x))
      = fun x : LeaveRequest => x.id == id := by
    funext x
    by_cases hx : (x.id == id) = true
    · simp only [Function.comp_apply, if_pos hx]
    · simp only [Function.comp_apply, if_neg hx]
  simp only [getLeaveRequest, updateLeaveRequestStatus] at h ⊢
  rw [List.find?_map, hpf, h]
  simp only [Option.map_some', if_pos hr]

theorem creditsOk_updatePtoCredits (s : AppState) (u : String) (U L : Int)
    (hU : 0 ≤ U) (hL : 0 ≤ L) (h : CreditsOk s) :
    CreditsOk (updatePtoCredits s u U L) := by
  intro c hc
  simp only [updatePtoCredits, List.mem_map] at hc
  obtain ⟨x, hx, rfl⟩ := hc
  by_cases hxu : (x.userId == u) = true
  · simp only [if_pos hxu]
    exact ⟨(h x hx).1, hU, hL⟩
  · simp only [if_neg hxu]
    exact h x hx

theorem requestsOk_updateLeaveRequestStatus (s : AppState) (id : String) (st : LeaveStatus)
    (a : String) (rem : Option String) (h : RequestsOk s) :
    RequestsOk (updateLeaveRequestStatus s id st a rem) := by
  intro r hr
  simp only [updateLeaveRequestStatus, List.mem_map] at hr
  obtain ⟨x, hx, rfl⟩ := hr
  by_cases hxi : (x.id == id) = true
  · simp only [if_pos hxi]
    exact h x hx
  · simp only [if_neg hxi]
    exact h x hx

/-- The PTO side of the §4.1 `applyDeduction` split, as the approve handler
computes it: `min(remaining, totalDays)` for an LWOP-flagged request, the
whole `totalDays` otherwise. -/
def ptoPortion (c : PtoCredits) (r : LeaveRequest) : Int :=
  if r.isLwop then min (c.totalCredits - c.usedCredits) r.totalDays else r.totalDays

/-- The LWOP side of the split: the days not covered by PTO. -/
def lwopPortion (c : PtoCredits) (r : LeaveRequest) : Int :=
  if r.isLwop then r.totalDays - min (c.totalCredits - c.usedCredits) r.totalDays else 0

/-- When every guard passes and the requester has a credits row, the approve
handler produces exactly: credits updated by the `ptoPortion`/`lwopPortion`
split, the request marked approved, and an audit row recording
`ptoDeducted = ptoPortion`. -/
theorem approve_ok_eq (s : AppState) (rid a : String) (rem : Option String)
    (r : LeaveRequest) (c0 : PtoCredits)
    (hfind : getLeaveRequest s rid = some r)
    (hauth : (isHrOrAdmin s a || isDesignatedApprover s r.department a) = true)
    (hpend : r.status = LeaveStatus.pending)
    (hlrem : (r.isLwop && remarksMissing rem) = false)
    (hcred : getPtoCredits s r.userId = some c0) :
    approveLeaveRequest s rid a rem =
      (createApprovalLog
        (updateLeaveRequestStatus
          (updatePtoCredits s r.userId (c0.usedCredits + ptoPortion c0 r)
            (c0.lwopDays + lwopPortion c0 r))
          rid LeaveStatus.approved a rem)
        { leaveRequestId := rid, actionBy := a,
          action := approveAuditAction (ptoPortion c0 r) (lwopPortion c0 r) r.isLwop,
          previousStatus := some LeaveStatus.pending,
          newStatus := some LeaveStatus.approved,
          remarks := rem, ptoDeducted := some (ptoPortion c0 r),
          isLwop := r.isLwop },
       Except.ok ()) := by
  by_cases hl : r.isLwop = true
  · have hrm : remarksMissing rem = false := by simpa [hl] using hlrem
    simp [approveLeaveRequest, hfind, hauth, hpend, hrm, hcred, hl, ptoPortion, lwopPortion]
  · have hl' : r.isLwop = false := by
      revert hl
      cases r.isLwop <;> simp
    simp [approveLeaveRequest, hfind, hauth, hpend, hlrem, hcred, hl', ptoPortion, lwopPortion]

/-- When every guard passes and the requester has no credits row, the approve
handler still succeeds, touches no credits, and logs `ptoDeducted = 0`. -/
theorem approve_ok_eq_nocredits (s : AppState) (rid a : String) (rem : Option String)
    (r : LeaveRequest)
    (hfind : getLeaveRequest s rid = some r)
    (hauth : (isHrOrAdmin s a || isDesignatedApprover s r.department a) = true)
    (hpend : r.status = LeaveStatus.pending)
    (hlrem : (r.isLwop && remarksMissing rem) = false)
    (hcred : getPtoCredits s r.userId = none) :
    approveLeaveRequest s rid a rem =
      (createApprovalLog
        (updateLeaveRequestStatus s rid LeaveStatus.approved a rem)
        { leaveRequestId := rid, actionBy := a,
          action := approveAuditAction 0 0 r.isLwop,
          previousStatus := some LeaveStatus.pending,
          newStatus := some LeaveStatus.approved,
          remarks := rem, ptoDeducted := some 0,
          isLwop := r.isLwop },
       Except.ok ()) := by
  simp [approveLeaveRequest, hfind, hauth, hpend, hlrem, hcred]

/-- An erroring approve call returns the input state untouched. -/
theorem approve_state_of_error (s : AppState) (rid a : String) (rem : Option String)
    (s1 : AppState) (e : ApiError)
    (h : approveLeaveRequest s rid a rem = (s1, Except.error e)) : s1 = s := by
  unfold approveLeaveRequest at h
  split at h
  · exact (Prod.mk.injEq .. ▸ h).1.symm
  · split at h
    · exact (Prod.mk.injEq .. ▸ h).1.symm
    · split at h
      · exact (Prod.mk.injEq .. ▸ h).1.symm
      · split at h
        · exact (Prod.mk.injEq .. ▸ h).1.symm
        · simp at h

/-- An erroring reject call returns the input state untouched. -/
theorem reject_state_of_error (s : AppState) (rid a : String) (rem : Option String)
    (s1 : AppState) (e : ApiError)
    (h : rejectLeaveRequest s rid a rem = (s1, Except.error e)) : s1 = s := by
  unfold rejectLeaveRequest at h
  split at h
  · exact (Prod.mk.injEq .. ▸ h).1.symm
  · split at h
    · exact (Prod.mk.injEq .. ▸ h).1.symm
    · split at h
      · exact (Prod.mk.injEq .. ▸ h).1.symm
      · simp at h

/-- When every guard passes, the reject handler marks the request rejected and
logs, touching no credits row. -/
theorem reject_ok_eq (s : AppState) (rid a : String) (rem : Option String)
    (r : LeaveRequest)
    (hfind : getLeaveRequest s rid = some r)
    (hauth : (isHrOrAdmin s a || isDesignatedApprover s r.department a) = true)
    (hpend : r.status = LeaveStatus.pending) :
    rejectLeaveRequest s rid a rem =
      (createApprovalLog
        (updateLeaveRequestStatus s rid LeaveStatus.rejected a rem)
        { leaveRequestId := rid, actionBy := a,
          action := "Rejected leave request",
          previousStatus := some LeaveStatus.pending,
          newStatus := some LeaveStatus.rejected,
          remarks := rem, ptoDeducted := none, isLwop := false },
       Except.ok ()) := by
  simp [rejectLeaveRequest, hfind, hauth, hpend]

/-- Filing preserves the balance invariant when the dates satisfy
`endDate >= startDate` (the inserted request then has a positive day count). -/
theorem balanceInv_file (s : AppState) (u t d : String) (a b : Int) (reason i : String)
    (hab : a ≤ b) (h : BalanceInv s) :
    BalanceInv (createLeaveRequest s u t d a b reason i).1 := by
  obtain ⟨hc, hr⟩ := h
  by_cases h10 : reason.length < 10
  · simp only [createLeaveRequest, if_pos h10]
    exact ⟨hc, hr⟩
  · cases hu : getUser s u with
    | none =>
      simp only [createLeaveRequest, if_neg h10, hu]
      exact ⟨hc, hr⟩
    | some usr =>
      simp only [createLeaveRequest, if_neg h10, hu, createApprovalLog]
      refine ⟨fun c hcm => hc c hcm, ?_⟩
      intro r hrm
      simp only [List.mem_append, List.mem_singleton] at hrm
      rcases hrm with hrm | rfl
      · exact hr r hrm
      · exact le_of_lt (totalDays_pos a b hab)

/-- Approval preserves the balance invariant: both deduction branches keep
`usedCredits` and `lwopDays` nonnegative. -/
theorem balanceInv_approve (s : AppState) (rid a : String) (rem : Option String)
    (h : BalanceInv s) : BalanceInv (approveLeaveRequest s rid a rem).1 := by
  obtain ⟨hc, hr⟩ := h
  cases hfind : getLeaveRequest s rid with
  | none =>
    simp only [approveLeaveRequest, hfind]
    exact ⟨hc, hr⟩
  | some r =>
    by_cases hauth : (isHrOrAdmin s a || isDesignatedApprover s r.department a) = true
    · by_cases hpend : r.status = LeaveStatus.pending
      · by_cases hlrem : (r.isLwop && remarksMissing rem) = true
        · simp [approveLeaveRequest, hfind, hauth, hpend, hlrem]
          exact ⟨hc, hr⟩
        · have hlrem' : (r.isLwop && remarksMissing rem) = false := by
            revert hlrem
            cases (r.isLwop && remarksMissing rem) <;> simp
          have hD : 0 ≤ r.totalDays :=
            hr r (List.mem_of_find?_eq_some (p := fun x : LeaveRequest => x.id == rid) hfind)
          cases hcred : getPtoCredits s r.userId with
          | none =>
            rw [approve_ok_eq_nocredits s rid a rem r hfind hauth hpend hlrem' hcred]
            exact ⟨fun c hcm => hc c hcm,
              fun rr hrm =>
                requestsOk_updateLeaveRequestStatus s rid LeaveStatus.approved a rem hr rr hrm⟩
          | some c0 =>
            have hcb := hc c0
              (List.mem_of_find?_eq_some (p := fun x : PtoCredits => x.userId == r.userId) hcred)
            rw [approve_ok_eq s rid a rem r c0 hfind hauth hpend hlrem' hcred]
            refine ⟨?_, ?_⟩
            · refine creditsOk_updatePtoCredits s r.userId _ _ ?_ ?_ hc
              · rcases Bool.dichotomy r.isLwop with hl | hl <;> simp [ptoPortion, hl] <;> omega
              · rcases Bool.dichotomy r.isLwop with hl | hl <;> simp [lwopPortion, hl] <;> omega
            · exact fun rr hrm =>
                requestsOk_updateLeaveRequestStatus _ rid LeaveStatus.approved a rem
                  (fun x hx => hr x hx) rr hrm
      · simp [approveLeaveRequest, hfind, hauth, hpend]
        exact ⟨hc, hr⟩
    · have hf : (isHrOrAdmin s a || isDesignatedApprover s r.department a) = false := by
        revert hauth
        cases (isHrOrAdmin s a || isDesignatedApprover s r.department a) <;> simp
      simp [approveLeaveRequest, hfind, hf]
      exact ⟨hc, hr⟩

/-- Rejection preserves the balance invariant: it never touches credits. -/
theorem balanceInv_reject (s : AppState) (rid a : String) (rem : Option String)
    (h : BalanceInv s) : BalanceInv (rejectLeaveRequest s rid a rem).1 := by
  obtain ⟨hc, hr⟩ := h
  cases hfind : getLeaveRequest s rid with
  | none =>
    simp only [rejectLeaveRequest, hfind]
    exact ⟨hc, hr⟩
  | some r =>
    by_cases hauth : (isHrOrAdmin s a || isDesignatedApprover s r.department a) = true
    · by_cases hpend : r.status = LeaveStatus.pending
      · rw [reject_ok_eq s rid a rem r hfind hauth hpend]
        exact ⟨fun c hcm => hc c hcm,
          fun rr hrm =>
            requestsOk_updateLeaveRequestStatus s rid LeaveStatus.rejected a rem hr rr hrm⟩
      · simp [rejectLeaveRequest, hfind, hauth, hpend]
        exact ⟨hc, hr⟩
    · have hf : (isHrOrAdmin s a || isDesignatedApprover s r.department a) = false := by
        revert hauth
        cases (isHrOrAdmin s a || isDesignatedApprover s r.department a) <;> simp
      simp [rejectLeaveRequest, hfind, hf]
      exact ⟨hc, hr⟩

theorem balanceInv_step (s : AppState) (op : Op) (hwf : wfOp op) (h : BalanceInv s) :
    BalanceInv (step s op) := by
  cases op with
  | file u t d a b reason i => exact balanceInv_file s u t d a b reason i hwf h
  | approve rid a rem => exact balanceInv_approve s rid a rem h
  | reject rid a rem => exact balanceInv_reject s rid a rem h

theorem balanceInv_run (s : AppState) (ops : List Op)
    (hwf : ∀ op ∈ ops, wfOp op) (h : BalanceInv s) : BalanceInv (run s ops) := by
  induction ops generalizing s with
  | nil => exact h
  | cons o os ih =>
    exact ih (step s o)
      (fun op hop => hwf op (List.mem_cons_of_mem o hop))
      (balanceInv_step s o (hwf o (List.mem_cons_self o os)) h)

/-! ## Concrete fixtures

`scenState` reproduces the spec's worked scenario: requester `u1` holds
5 credits with 3 used, has a pending 5-day LWOP-flagged vacation request
`r1`, `m1` is the designated approver for `sales`, `h1` is HR. -/

def empUser : User := { id := "u1", role := Role.employee, department := "sales" }

def hrUser : User := { id := "h1", role := Role.hr, department := "human_resources" }

def mgrUser : User := { id := "m1", role := Role.manager, department := "sales" }

def scenRequest : LeaveRequest :=
  { id := "r1", userId := "u1", leaveType := "vacation", department := "sales",
    startDate := 0, endDate := 4 * 86400000, totalDays := 5,
    reason := "family vacation trip", status := LeaveStatus.pending,
    isLwop := true, approverId := none, approverRemarks := none }

def scenState : AppState :=
  { users := [empUser, hrUser, mgrUser],
    credits := [{ userId := "u1", totalCredits := 5, usedCredits := 3, lwopDays := 0 }],
    requests := [scenRequest],
    approvers := [{ department := "sales", approverUserId := "m1" }],
    logs := [] }

/-- Registration-time state: fresh balance `(5, 0, 0)`, no requests yet. -/
def regState : AppState :=
  { users := [empUser, hrUser, mgrUser],
    credits := [{ userId := "u1", totalCredits := 5, usedCredits := 0, lwopDays := 0 }],
    requests := [],
    approvers := [{ department := "sales", approverUserId := "m1" }],
    logs := [] }

/-- `scenRequest` after an approval by HR, with the LWOP flag off. -/
def approvedRequest : LeaveRequest :=
  { scenRequest with
      status := LeaveStatus.approved, isLwop := false, approverId := some "h1" }

/-- A state whose only request has already been approved. -/
def approvedState : AppState :=
  { regState with requests := [approvedRequest] }

/-- `scenState` with the requester's credits row missing. -/
def noCreditsState : AppState := { scenState with credits := [] }

/-- Two 3-day non-LWOP filings against the same fresh balance, then both
approved: the sequence that overdraws `usedCredits` past `totalCredits`. -/
def overdraftOps : List Op :=
  [Op.file "u1" "vacation" "sales" 0 (2 * 86400000) "long enough reason" "q1",
   Op.file "u1" "vacation" "sales" 0 (2 * 86400000) "long enough reason" "q2",
   Op.approve "q1" "h1" none,
   Op.approve "q2" "h1" none]

theorem overdraftOps_wf : ∀ op ∈ overdraftOps, wfOp op := by
  intro op hop
  simp only [overdraftOps, List.mem_cons, List.not_mem_nil, or_false] at hop
  rcases hop with rfl | rfl | rfl | rfl
  · norm_num [wfOp]
  · norm_num [wfOp]
  · trivial
  · trivial

/-! ## Claims -/

/-- C1, counterexample: starting from the registration-time balance
`(totalCredits = 5, usedCredits = 0, lwopDays = 0)`, the well-formed sequence
`overdraftOps` (two 3-day filings, both predicted non-LWOP against the same
untouched balance, then both approved) drives the balance to
`usedCredits = 6 > 5 = totalCredits`, falsifying the claimed invariant
`usedCredits <= totalCredits`. -/
theorem c1_counterexample :
    (∀ op ∈ overdraftOps, wfOp op) ∧
    ∃ c ∈ (run regState overdraftOps).credits, c.totalCredits < c.usedCredits := by
  refine ⟨overdraftOps_wf, ?_⟩
  have hcred : (run regState overdraftOps).credits =
      [{ userId := "u1", totalCredits := 5, usedCredits := 6, lwopDays := 0 }] := by
    decide
  rw [hcred]
  exact ⟨_, List.mem_singleton.mpr rfl, by norm_num⟩

/-- C1 (amended): after any sequence of well-formed filings
(`endDate >= startDate`) and approvals/rejections starting from
registration-time balances `(5, 0, 0)`, every balance still satisfies
`usedCredits >= 0` and `lwopDays >= 0`; the upper bound
`usedCredits <= totalCredits` does not survive overlapping non-LWOP
filings (see the counterexample). -/
theorem c1_balance_bounds (s0 : AppState) (ops : List Op)
    (hcred : ∀ c ∈ s0.credits, c.totalCredits = 5 ∧ c.usedCredits = 0 ∧ c.lwopDays = 0)
    (hreq : ∀ r ∈ s0.requests, 0 ≤ r.totalDays)
    (hwf : ∀ op ∈ ops, wfOp op) :
    ∀ c ∈ (run s0 ops).credits, 0 ≤ c.usedCredits ∧ 0 ≤ c.lwopDays := by
  have h : BalanceInv (run s0 ops) :=
    balanceInv_run s0 ops hwf
      ⟨fun c hc => by
          obtain ⟨h1, h2, h3⟩ := hcred c hc
          omega,
        hreq⟩
  exact fun c hc => ⟨(h.1 c hc).2.1, (h.1 c hc).2.2⟩

/-- C1 witness: the amended bounds hold on the concrete overdraft run. -/
theorem c1_balance_bounds_witness :
    0 ≤ ({ userId := "u1", totalCredits := 5, usedCredits := 6, lwopDays := 0 } : PtoCredits).usedCredits ∧
    0 ≤ ({ userId := "u1", totalCredits := 5, usedCredits := 6, lwopDays := 0 } : PtoCredits).lwopDays :=
  c1_balance_bounds regState overdraftOps (by decide) (by decide) overdraftOps_wf
    { userId := "u1", totalCredits := 5, usedCredits := 6, lwopDays := 0 } (by decide)

/-- C2: approving a pending request whose balance exists applies exactly the
`ptoPortion`/`lwopPortion` split: for an LWOP-flagged request
`ptoPortion = min(remaining, totalDays)` and `lwopPortion` is the rest (so
`ptoPortion = remaining` and `lwopPortion = totalDays - remaining` whenever
`totalDays > remaining`); for a non-flagged request the whole `totalDays` is
added to `usedCredits` with `lwopDays` unchanged and no re-check; the newest
audit row records `ptoDeducted = ptoPortion`. -/
theorem c2_approval_split (s : AppState) (rid actorId : String) (rem : Option String)
    (r : LeaveRequest) (c : PtoCredits)
    (hfind : getLeaveRequest s rid = some r)
    (hpend : r.status = LeaveStatus.pending)
    (hauth : (isHrOrAdmin s actorId || isDesignatedApprover s r.department actorId) = true)
    (hlrem : (r.isLwop && remarksMissing rem) = false)
    (hcred : getPtoCredits s r.userId = some c) :
    (approveLeaveRequest s rid actorId rem).2 = Except.ok () ∧
    getPtoCredits (approveLeaveRequest s rid actorId rem).1 r.userId =
      some { c with usedCredits := c.usedCredits + ptoPortion c r,
                    lwopDays := c.lwopDays + lwopPortion c r } ∧
    ((approveLeaveRequest s rid actorId rem).1.logs.head?.map (fun l => l.ptoDeducted))
      = some (some (ptoPortion c r)) ∧
    (r.isLwop = true →
      ptoPortion c r = min (c.totalCredits - c.usedCredits) r.totalDays ∧
      lwopPortion c r = r.totalDays - ptoPortion c r) ∧
    (r.isLwop = true → c.totalCredits - c.usedCredits < r.totalDays →
      ptoPortion c r = c.totalCredits - c.usedCredits ∧
      lwopPortion c r = r.totalDays - (c.totalCredits - c.usedCredits)) ∧
    (r.isLwop = false → ptoPortion c r = r.totalDays ∧ lwopPortion c r = 0) := by
  rw [approve_ok_eq s rid actorId rem r c hfind hauth hpend hlrem hcred]
  refine ⟨rfl, ?_, rfl, ?_, ?_, ?_⟩
  · exact getPtoCredits_updatePtoCredits s r.userId
      (c.usedCredits + ptoPortion c r) (c.lwopDays + lwopPortion c r) c hcred
  · intro hl
    simp [ptoPortion, lwopPortion, hl]
  · intro hl hlt
    constructor
    · simp only [ptoPortion, hl, if_true]
      omega
    · simp only [lwopPortion, hl, if_true]
      omega
  · intro hl
    simp [ptoPortion, lwopPortion, hl]

/-- C2 witness: the spec's worked scenario (`remaining = 2`, 5-day LWOP
request approved by HR with remarks) lands on `usedCredits = 5, lwopDays = 3`
with `ptoDeducted = 2`. -/
theorem c2_approval_split_witness :
    (approveLeaveRequest scenState "r1" "h1" (some "ok")).2 = Except.ok () ∧
    getPtoCredits (approveLeaveRequest scenState "r1" "h1" (some "ok")).1 "u1" =
      some { userId := "u1", totalCredits := 5, usedCredits := 5, lwopDays := 3 } ∧
    ((approveLeaveRequest scenState "r1" "h1" (some "ok")).1.logs.head?.map
      (fun l => l.ptoDeducted)) = some (some 2) := by
  have h := c2_approval_split scenState "r1" "h1" (some "ok") scenRequest
    { userId := "u1", totalCredits := 5, usedCredits := 3, lwopDays := 0 }
    (by decide) (by decide) (by decide) (by decide) (by decide)
  exact ⟨h.1, by decide, by decide⟩

/-- C3: for an existing request, an `hr` or `admin` actor always passes the
authorization guard; an actor who is the designated approver for the
request's department passes it; and the guard fails exactly for everyone
else, in which case both approve and reject return `Forbidden` with the
state untouched (never a silent no-op), while an authorized actor never
receives `Forbidden` from either handler. -/
theorem c3_authorization (s : AppState) (rid actorId : String) (rem : Option String)
    (r : LeaveRequest) (hfind : getLeaveRequest s rid = some r) :
    ((roleOf s actorId = some Role.hr ∨ roleOf s actorId = some Role.admin) →
      (isHrOrAdmin s actorId || isDesignatedApprover s r.department actorId) = true) ∧
    (∀ da : DepartmentApprover, getDepartmentApprover s r.department = some da →
      da.approverUserId = actorId →
      (isHrOrAdmin s actorId || isDesignatedApprover s r.department actorId) = true) ∧
    ((isHrOrAdmin s actorId || isDesignatedApprover s r.department actorId) = false →
      approveLeaveRequest s rid actorId rem = (s, Except.error ApiError.Forbidden) ∧
      rejectLeaveRequest s rid actorId rem = (s, Except.error ApiError.Forbidden)) ∧
    ((isHrOrAdmin s actorId || isDesignatedApprover s r.department actorId) = true →
      (approveLeaveRequest s rid actorId rem).2 ≠ Except.error ApiError.Forbidden ∧
      (rejectLeaveRequest s rid actorId rem).2 ≠ Except.error ApiError.Forbidden) := by
  refine ⟨?_, ?_, ?_, ?_⟩
  · intro h
    rcases h with h | h <;> simp [isHrOrAdmin, h]
  · intro da hda hid
    have hdes : isDesignatedApprover s r.department actorId = true := by
      simp [isDesignatedApprover, hda, hid]
    simp [hdes]
  · intro hf
    exact ⟨by simp [approveLeaveRequest, hfind, hf],
      by simp [rejectLeaveRequest, hfind, hf]⟩
  · intro ht
    constructor
    · by_cases hpend : r.status = LeaveStatus.pending
      · by_cases hlrem : (r.isLwop && remarksMissing rem) = true
        · simp [approveLeaveRequest, hfind, ht, hpend, hlrem]
        · have hlrem' : (r.isLwop && remarksMissing rem) = false := by
            revert hlrem
            cases (r.isLwop && remarksMissing rem) <;> simp
          cases hcred : getPtoCredits s r.userId with
          | none =>
            rw [approve_ok_eq_nocredits s rid actorId rem r hfind ht hpend hlrem' hcred]
            simp
          | some c0 =>
            rw [approve_ok_eq s rid actorId rem r c0 hfind ht hpend hlrem' hcred]
            simp
      · simp [approveLeaveRequest, hfind, ht, hpend]
    · by_cases hpend : r.status = LeaveStatus.pending
      · rw [reject_ok_eq s rid actorId rem r hfind ht hpend]
        simp
      · simp [rejectLeaveRequest, hfind, ht, hpend]

/-- C3 witness: on the worked scenario the plain employee `u1` is refused
with `Forbidden`, while HR `h1` and the designated approver `m1` are not. -/
theorem c3_authorization_witness :
    approveLeaveRequest scenState "r1" "u1" none = (scenState, Except.error ApiError.Forbidden) ∧
    rejectLeaveRequest scenState "r1" "u1" none = (scenState, Except.error ApiError.Forbidden) ∧
    (approveLeaveRequest scenState "r1" "h1" (some "ok")).2 ≠ Except.error ApiError.Forbidden ∧
    (rejectLeaveRequest scenState "r1" "m1" (some "no")).2 ≠ Except.error ApiError.Forbidden := by
  have hu := c3_authorization scenState "r1" "u1" none scenRequest (by decide)
  have hh := c3_authorization scenState "r1" "h1" (some "ok") scenRequest (by decide)
  have hm := c3_authorization scenState "r1" "m1" (some "no") scenRequest (by decide)
  exact ⟨(hu.2.2.1 (by decide)).1, (hu.2.2.1 (by decide)).2,
    (hh.2.2.2 (by decide)).1, (hm.2.2.2 (by decide)).2⟩

/-- A successful approve call found the request pending and leaves it marked
approved in the output state. -/
theorem approve_ok_status (s : AppState) (rid a : String) (rem : Option String)
    (s1 : AppState) (h : approveLeaveRequest s rid a rem = (s1, Except.ok ())) :
    ∃ r, getLeaveRequest s rid = some r ∧ r.status = LeaveStatus.pending ∧
      getLeaveRequest s1 rid =
        some { r with
          status := LeaveStatus.approved, approverId := some a,
          approverRemarks := rem } := by
  cases hfind : getLeaveRequest s rid with
  | none => simp [approveLeaveRequest, hfind] at h
  | some r =>
    by_cases hauth : (isHrOrAdmin s a || isDesignatedApprover s r.department a) = true
    · by_cases hpend : r.status = LeaveStatus.pending
      · by_cases hlrem : (r.isLwop && remarksMissing rem) = true
        · simp [approveLeaveRequest, hfind, hauth, hpend, hlrem] at h
        · have hlrem' : (r.isLwop && remarksMissing rem) = false := by
            revert hlrem
            cases (r.isLwop && remarksMissing rem) <;> simp
          refine ⟨r, rfl, hpend, ?_⟩
          cases hcred : getPtoCredits s r.userId with
          | none =>
            rw [approve_ok_eq_nocredits s rid a rem r hfind hauth hpend hlrem' hcred] at h
            have hs1 := (Prod.mk.injEq .. ▸ h).1
            rw [← hs1]
            exact getLeaveRequest_updateLeaveRequestStatus s rid LeaveStatus.approved a rem r hfind
          | some c0 =>
            rw [approve_ok_eq s rid a rem r c0 hfind hauth hpend hlrem' hcred] at h
            have hs1 := (Prod.mk.injEq .. ▸ h).1
            rw [← hs1]
            exact getLeaveRequest_updateLeaveRequestStatus
              (updatePtoCredits s r.userId (c0.usedCredits + ptoPortion c0 r)
                (c0.lwopDays + lwopPortion c0 r)) rid LeaveStatus.approved a rem r hfind
      · simp [approveLeaveRequest, hfind, hauth, hpend] at h
    · have hf : (isHrOrAdmin s a || isDesignatedApprover s r.department a) = false := by
        revert hauth
        cases (isHrOrAdmin s a || isDesignatedApprover s r.department a) <;> simp
      simp [approveLeaveRequest, hfind, hf] at h

/-- C4, counterexample: on an already-approved request, a further approve
call by an actor who is not authorized fails with `Forbidden`, not with the
claimed `InvalidState` — the authorization guard runs first. -/
theorem c4_counterexample :
    (getLeaveRequest approvedState "r1").map (fun r => r.status) =
      some LeaveStatus.approved ∧
    (approveLeaveRequest approvedState "r1" "u1" none).2 = Except.error ApiError.Forbidden ∧
    (rejectLeaveRequest approvedState "r1" "u1" none).2 = Except.error ApiError.Forbidden ∧
    ApiError.Forbidden ≠ ApiError.InvalidState := by
  refine ⟨by decide, rfl, rfl, by decide⟩

/-- C4 (amended): on a non-pending request, approve and reject fail with
`InvalidState` and leave the state untouched for every actor who passes the
authorization guard (an unauthorized actor is stopped earlier with
`Forbidden`); and after a successful approve, every further approve or
reject call on the same request by an actor still authorized for it fails
with `InvalidState` and leaves the once-mutated state unchanged.  -/
theorem c4_terminal_status (s : AppState) (rid actorId : String) (rem : Option String) :
    (∀ r, getLeaveRequest s rid = some r →
      (isHrOrAdmin s actorId || isDesignatedApprover s r.department actorId) = true →
      r.status ≠ LeaveStatus.pending →
      approveLeaveRequest s rid actorId rem = (s, Except.error ApiError.InvalidState) ∧
      rejectLeaveRequest s rid actorId rem = (s, Except.error ApiError.InvalidState)) ∧
    (∀ s1, approveLeaveRequest s rid actorId rem = (s1, Except.ok ()) →
      ∀ actorId2 rem2 r1, getLeaveRequest s1 rid = some r1 →
        (isHrOrAdmin s1 actorId2 || isDesignatedApprover s1 r1.department actorId2) = true →
        approveLeaveRequest s1 rid actorId2 rem2 = (s1, Except.error ApiError.InvalidState) ∧
        rejectLeaveRequest s1 rid actorId2 rem2 = (s1, Except.error ApiError.InvalidState)) := by
  constructor
  · intro r hfind hauth hpend
    exact ⟨by simp [approveLeaveRequest, hfind, hauth, hpend],
      by simp [rejectLeaveRequest, hfind, hauth, hpend]⟩
  · intro s1 hok actorId2 rem2 r1 hfind1 hauth1
    obtain ⟨r, hfind, hpend, hupd⟩ := approve_ok_status s rid actorId rem s1 hok
    have hr1 : r1 =
        { r with
          status := LeaveStatus.approved, approverId := some actorId,
          approverRemarks := rem } := by
      rw [hfind1] at hupd
      exact Option.some.inj hupd
    have hnp : r1.status ≠ LeaveStatus.pending := by
      rw [hr1]
      simp
    exact ⟨by simp [approveLeaveRequest, hfind1, hauth1, hnp],
      by simp [rejectLeaveRequest, hfind1, hauth1, hnp]⟩

/-- C4 witness: HR hits `InvalidState` on the already-approved request, and a
second HR approve after a successful one hits `InvalidState` with the state
unchanged. -/
theorem c4_terminal_status_witness :
    approveLeaveRequest approvedState "r1" "h1" none =
      (approvedState, Except.error ApiError.InvalidState) ∧
    approveLeaveRequest (approveLeaveRequest scenState "r1" "h1" (some "ok")).1 "r1" "h1"
        (some "ok") =
      ((approveLeaveRequest scenState "r1" "h1" (some "ok")).1,
        Except.error ApiError.InvalidState) := by
  constructor
  · exact ((c4_terminal_status approvedState "r1" "h1" none).1 approvedRequest
      (by decide) (by decide) (by decide)).1
  · exact ((c4_terminal_status scenState "r1" "h1" (some "ok")).2
      (approveLeaveRequest scenState "r1" "h1" (some "ok")).1 rfl "h1" (some "ok")
      { scenRequest with
          status := LeaveStatus.approved, approverId := some "h1",
          approverRemarks := some "ok" }
      (by decide) (by decide)).1

/-- C5: filing with a valid reason and an existing balance record creates a
pending request whose `totalDays` is `ceil((endDate - startDate)/1 day) + 1`
— the inclusive calendar-day count, equal to `k + 1` whenever the dates are
exactly `k` whole days apart — and whose `isLwop` flag is set exactly when
`totalDays` exceeds `totalCredits - usedCredits` at filing time. -/
theorem c5_filing_totaldays_islwop (s : AppState) (userId leaveType department : String)
    (startMs endMs : Int) (reason newId : String) (u : User) (c : PtoCredits)
    (hu : getUser s userId = some u)
    (hc : getPtoCredits s userId = some c)
    (hreason : 10 ≤ reason.length) :
    (createLeaveRequest s userId leaveType department startMs endMs reason newId).2 =
      Except.ok () ∧
    (createLeaveRequest s userId leaveType department startMs endMs reason newId).1.requests =
      s.requests ++
        [{ id := newId, userId := userId, leaveType := leaveType, department := department,
           startDate := startMs, endDate := endMs,
           totalDays := computeTotalDays startMs endMs, reason := reason,
           status := LeaveStatus.pending,
           isLwop := decide (c.totalCredits - c.usedCredits < computeTotalDays startMs endMs),
           approverId := none, approverRemarks := none }] ∧
    (∀ k : Int, 0 ≤ k → endMs - startMs = k * msPerDay →
      computeTotalDays startMs endMs = k + 1) := by
  have h10 : ¬reason.length < 10 := by omega
  refine ⟨?_, ?_, ?_⟩
  · simp [createLeaveRequest, h10, hu]
  · simp [createLeaveRequest, h10, hu, hc, createApprovalLog, computeTotalDays]
  · intro k hk hdk
    exact totalDays_of_whole_days startMs endMs k hk hdk

/-- C5 witness: filing a 3-day request (two whole days apart inclusive)
against a fresh balance of 5 is predicted non-LWOP with `totalDays = 3`. -/
theorem c5_filing_totaldays_islwop_witness :
    (createLeaveRequest regState "u1" "vacation" "sales" 0 (2 * 86400000)
      "long enough reason" "q1").2 = Except.ok () ∧
    (createLeaveRequest regState "u1" "vacation" "sales" 0 (2 * 86400000)
      "long enough reason" "q1").1.requests =
      [{ id := "q1", userId := "u1", leaveType := "vacation", department := "sales",
         startDate := 0, endDate := 2 * 86400000, totalDays := 3,
         reason := "long enough reason", status := LeaveStatus.pending,
         isLwop := false, approverId := none, approverRemarks := none }] ∧
    computeTotalDays 0 (2 * 86400000) = 2 + 1 := by
  have h := c5_filing_totaldays_islwop regState "u1" "vacation" "sales" 0 (2 * 86400000)
    "long enough reason" "q1" empUser
    { userId := "u1", totalCredits := 5, usedCredits := 0, lwopDays := 0 }
    (by decide) (by decide) (by decide)
  exact ⟨h.1, by decide, h.2.2 2 (by norm_num) (by norm_num [msPerDay])⟩

/-- C6: with the request pending and the actor authorized, approving an
LWOP-flagged request with missing or empty remarks fails with
`ValidationError` and mutates nothing, while any non-empty remarks make it
succeed; a non-LWOP request is approved with no remarks at all. -/
theorem c6_lwop_remarks_guard (s : AppState) (rid actorId : String)
    (r : LeaveRequest) (hfind : getLeaveRequest s rid = some r)
    (hpend : r.status = LeaveStatus.pending)
    (hauth : (isHrOrAdmin s actorId || isDesignatedApprover s r.department actorId) = true) :
    (r.isLwop = true → ∀ rem : Option String, remarksMissing rem = true →
      approveLeaveRequest s rid actorId rem = (s, Except.error ApiError.ValidationError)) ∧
    (r.isLwop = true → ∀ t : String, t ≠ "" →
      (approveLeaveRequest s rid actorId (some t)).2 = Except.ok ()) ∧
    (r.isLwop = false → (approveLeaveRequest s rid actorId none).2 = Except.ok ()) := by
  refine ⟨?_, ?_, ?_⟩
  · intro hl rem hmiss
    have hg : (r.isLwop && remarksMissing rem) = true := by simp [hl, hmiss]
    simp [approveLeaveRequest, hfind, hauth, hpend, hg]
  · intro hl t ht
    have hg : (r.isLwop && remarksMissing (some t)) = false := by
      simp [hl, remarksMissing, ht]
    cases hcred : getPtoCredits s r.userId with
    | none =>
      rw [approve_ok_eq_nocredits s rid actorId (some t) r hfind hauth hpend hg hcred]
    | some c0 =>
      rw [approve_ok_eq s rid actorId (some t) r c0 hfind hauth hpend hg hcred]
  · intro hl
    have hg : (r.isLwop && remarksMissing none) = false := by simp [hl]
    cases hcred : getPtoCredits s r.userId with
    | none =>
      rw [approve_ok_eq_nocredits s rid actorId none r hfind hauth hpend hg hcred]
    | some c0 =>
      rw [approve_ok_eq s rid actorId none r c0 hfind hauth hpend hg hcred]

/-- C6 witness: on the LWOP scenario request, HR without remarks (or with
empty remarks) gets `ValidationError`; with remarks "ok" the approval goes
through. -/
theorem c6_lwop_remarks_guard_witness :
    approveLeaveRequest scenState "r1" "h1" none =
      (scenState, Except.error ApiError.ValidationError) ∧
    approveLeaveRequest scenState "r1" "h1" (some "") =
      (scenState, Except.error ApiError.ValidationError) ∧
    (approveLeaveRequest scenState "r1" "h1" (some "ok")).2 = Except.ok () := by
  have h := c6_lwop_remarks_guard scenState "r1" "h1" scenRequest
    (by decide) (by decide) (by decide)
  exact ⟨h.1 (by decide) none (by decide), h.1 (by decide) (some "") (by decide),
    h.2.1 (by decide) "ok" (by decide)⟩

/-- C7, counterexample: filing with `endDate < startDate` (here the end five
whole days before the start) and a long reason does NOT fail — the handler
validates no dates, returns success and inserts a request (with a negative
`totalDays`). -/
theorem c7_counterexample :
    ((0 : Int) < 5 * msPerDay) ∧
    (createLeaveRequest regState "u1" "vacation" "sales" (5 * msPerDay) 0
      "sufficiently long reason" "r9").2 = Except.ok () ∧
    (createLeaveRequest regState "u1" "vacation" "sales" (5 * msPerDay) 0
      "sufficiently long reason" "r9").1.requests.length =
      regState.requests.length + 1 ∧
    ((createLeaveRequest regState "u1" "vacation" "sales" (5 * msPerDay) 0
      "sufficiently long reason" "r9").1.requests.map (fun r => r.totalDays)) = [-4] := by
  refine ⟨by norm_num [msPerDay], rfl, by decide, by decide⟩

/-- C7 (amended): `createLeaveRequest` fails with `ValidationError` exactly
when the reason is shorter than 10 characters, and then creates no request
and no audit entry; the date precondition `endDate >= startDate` is never
checked, so date-invalid inputs are not rejected. -/
theorem c7_validation (s : AppState) (userId leaveType department : String)
    (startMs endMs : Int) (reason newId : String) :
    ((createLeaveRequest s userId leaveType department startMs endMs reason newId).2 =
        Except.error ApiError.ValidationError ↔ reason.length < 10) ∧
    (reason.length < 10 →
      createLeaveRequest s userId leaveType department startMs endMs reason newId =
        (s, Except.error ApiError.ValidationError)) := by
  by_cases h10 : reason.length < 10
  · constructor
    · simp [createLeaveRequest, h10]
    · intro _
      simp [createLeaveRequest, h10]
  · constructor
    · cases hu : getUser s userId with
      | none => simp [createLeaveRequest, h10, hu]
      | some u => simp [createLeaveRequest, h10, hu]
    · intro h
      exact absurd h h10

/-- C7 witness: a 9-character reason is rejected with `ValidationError` and
leaves the state unchanged; a 10-character one is not rejected. -/
theorem c7_validation_witness :
    createLeaveRequest regState "u1" "vacation" "sales" 0 0 "too short" "r9" =
      (regState, Except.error ApiError.ValidationError) ∧
    ¬((createLeaveRequest regState "u1" "vacation" "sales" 0 0 "long enough reason" "r9").2 =
        Except.error ApiError.ValidationError) := by
  constructor
  · exact (c7_validation regState "u1" "vacation" "sales" 0 0 "too short" "r9").2 (by decide)
  · intro h
    have := (c7_validation regState "u1" "vacation" "sales" 0 0 "long enough reason" "r9").1.mp h
    exact absurd this (by decide)

/-- C8: the requester's balance — indeed the whole state — is unchanged by
every approve or reject call that fails a guard, and a successful reject
changes no credits row; only a successful approve can mutate the balance. -/
theorem c8_no_mutation_on_failure (s : AppState) (rid actorId : String)
    (rem : Option String) :
    (∀ s1 e, approveLeaveRequest s rid actorId rem = (s1, Except.error e) → s1 = s) ∧
    (∀ s1 e, rejectLeaveRequest s rid actorId rem = (s1, Except.error e) → s1 = s) ∧
    (∀ s1, rejectLeaveRequest s rid actorId rem = (s1, Except.ok ()) →
      s1.credits = s.credits) := by
  refine ⟨?_, ?_, ?_⟩
  · intro s1 e h
    exact approve_state_of_error s rid actorId rem s1 e h
  · intro s1 e h
    exact reject_state_of_error s rid actorId rem s1 e h
  · intro s1 h
    cases hfind : getLeaveRequest s rid with
    | none => simp [rejectLeaveRequest, hfind] at h
    | some r =>
      by_cases hauth : (isHrOrAdmin s actorId || isDesignatedApprover s r.department actorId) = true
      · by_cases hpend : r.status = LeaveStatus.pending
        · rw [reject_ok_eq s rid actorId rem r hfind hauth hpend] at h
          have hs1 := (Prod.mk.injEq .. ▸ h).1
          rw [← hs1]
          rfl
        · simp [rejectLeaveRequest, hfind, hauth, hpend] at h
      · have hf : (isHrOrAdmin s actorId || isDesignatedApprover s r.department actorId) = false := by
          revert hauth
          cases (isHrOrAdmin s actorId || isDesignatedApprover s r.department actorId) <;> simp
        simp [rejectLeaveRequest, hfind, hf] at h

/-- C8 witness: a NotFound approve, a Forbidden reject and a successful
reject all leave the credits untouched. -/
theorem c8_no_mutation_on_failure_witness :
    (approveLeaveRequest scenState "nope" "h1" none).1 = scenState ∧
    (rejectLeaveRequest scenState "r1" "u1" none).1 = scenState ∧
    (rejectLeaveRequest scenState "r1" "m1" (some "no")).1.credits = scenState.credits := by
  refine ⟨?_, ?_, ?_⟩
  · exact (c8_no_mutation_on_failure scenState "nope" "h1" none).1
      (approveLeaveRequest scenState "nope" "h1" none).1 ApiError.NotFound rfl
  · exact (c8_no_mutation_on_failure scenState "r1" "u1" none).2.1
      (rejectLeaveRequest scenState "r1" "u1" none).1 ApiError.Forbidden rfl
  · exact (c8_no_mutation_on_failure scenState "r1" "m1" (some "no")).2.2
      (rejectLeaveRequest scenState "r1" "m1" (some "no")).1 rfl

/-- C10: approving a pending request whose requester has no credits row does
not fail: the request still becomes approved, the credits table is unchanged
(no row created or mutated), and the audit entry records `ptoDeducted = 0`. -/
theorem c10_missing_balance (s : AppState) (rid actorId : String) (rem : Option String)
    (r : LeaveRequest) (hfind : getLeaveRequest s rid = some r)
    (hpend : r.status = LeaveStatus.pending)
    (hauth : (isHrOrAdmin s actorId || isDesignatedApprover s r.department actorId) = true)
    (hlrem : (r.isLwop && remarksMissing rem) = false)
    (hnone : getPtoCredits s r.userId = none) :
    (approveLeaveRequest s rid actorId rem).2 = Except.ok () ∧
    (approveLeaveRequest s rid actorId rem).1.credits = s.credits ∧
    getLeaveRequest (approveLeaveRequest s rid actorId rem).1 rid =
      some { r with
        status := LeaveStatus.approved, approverId := some actorId,
        approverRemarks := rem } ∧
    ((approveLeaveRequest s rid actorId rem).1.logs.head?.map (fun l => l.ptoDeducted))
      = some (some 0) := by
  rw [approve_ok_eq_nocredits s rid actorId rem r hfind hauth hpend hlrem hnone]
  refine ⟨rfl, rfl, ?_, rfl⟩
  exact getLeaveRequest_updateLeaveRequestStatus s rid LeaveStatus.approved actorId rem r hfind

/-- C10 witness: approving the scenario request with the credits table empty
succeeds, keeps the credits table empty, and logs `ptoDeducted = 0`. -/
theorem c10_missing_balance_witness :
    (approveLeaveRequest noCreditsState "r1" "h1" (some "ok")).2 = Except.ok () ∧
    (approveLeaveRequest noCreditsState "r1" "h1" (some "ok")).1.credits = [] ∧
    ((approveLeaveRequest noCreditsState "r1" "h1" (some "ok")).1.logs.head?.map
      (fun l => l.ptoDeducted)) = some (some 0) := by
  have h := c10_missing_balance noCreditsState "r1" "h1" (some "ok") scenRequest
    (by decide) (by decide) (by decide) (by decide) (by decide)
  exact ⟨h.1, h.2.1, h.2.2.2⟩

/-- Inversion for a successful department-approver lookup. -/
theorem getDepartmentApprover_some (s : AppState) (dept : String) (row : DepartmentApprover)
    (h : getDepartmentApprover s dept = some row) :
    s.approvers.find? (fun a => a.department == dept) = some row ∧
    (getUser s row.approverUserId).isSome = true := by
  unfold getDepartmentApprover at h
  cases hfa : s.approvers.find? (fun a => a.department == dept) with
  | none =>
    simp only [hfa] at h
    exact Option.noConfusion h
  | some row0 =>
    simp only [hfa] at h
    by_cases hsome : (getUser s row0.approverUserId).isSome = true
    · rw [if_pos hsome] at h
      have heq : row0 = row := by simpa using h
      subst heq
      exact ⟨rfl, hsome⟩
    · rw [if_neg hsome] at h
      simp at h

/-- Introduction for a successful department-approver lookup. -/
theorem getDepartmentApprover_of_find (s : AppState) (dept : String) (row : DepartmentApprover)
    (hfa : s.approvers.find? (fun a => a.department == dept) = some row)
    (hsome : (getUser s row.approverUserId).isSome = true) :
    getDepartmentApprover s dept = some row := by
  unfold getDepartmentApprover
  simp only [hfa]
  rw [if_pos hsome]

/-- Each department has at most one approver row — the shape maintained by
`setDepartmentApprover`, the only writer of `department_approvers` reachable
through the routes. -/
def deptUnique (s : AppState) : Prop :=
  ∀ a1 ∈ s.approvers, ∀ a2 ∈ s.approvers, a1.department = a2.department → a1 = a2

/-- Under per-department uniqueness, the handler's designated-approver check
holds exactly when some approver row assigns the actor to the department and
the actor's user record exists. -/
theorem isDesignatedApprover_iff (s : AppState) (dept actorId : String)
    (hdu : deptUnique s) :
    isDesignatedApprover s dept actorId = true ↔
      ∃ row ∈ s.approvers, row.department = dept ∧ row.approverUserId = actorId ∧
        (getUser s row.approverUserId).isSome = true := by
  constructor
  · intro h
    unfold isDesignatedApprover at h
    cases hda : getDepartmentApprover s dept with
    | none =>
      simp only [hda] at h
      exact absurd h (by simp)
    | some row =>
      simp only [hda] at h
      obtain ⟨hfa, hsome⟩ := getDepartmentApprover_some s dept row hda
      have hmem := List.mem_of_find?_eq_some
        (p := fun a : DepartmentApprover => a.department == dept) hfa
      have hdept : (row.department == dept) = true :=
        List.find?_some (p := fun a : DepartmentApprover => a.department == dept) hfa
      exact ⟨row, hmem, by simpa using hdept, by simpa using h, hsome⟩
  · rintro ⟨row, hmem, hdept, hact, hsome⟩
    unfold isDesignatedApprover
    cases hfa : s.approvers.find? (fun a => a.department == dept) with
    | none =>
      rw [List.find?_eq_none] at hfa
      exact absurd (by simp [hdept] : (row.department == dept) = true)
        (by simpa using hfa row hmem)
    | some row0 =>
      have hmem0 := List.mem_of_find?_eq_some
        (p := fun a : DepartmentApprover => a.department == dept) hfa
      have hdept0 : (row0.department == dept) = true :=
        List.find?_some (p := fun a : DepartmentApprover => a.department == dept) hfa
      have heq : row0 = row := hdu row0 hmem0 row hmem (by
        have h1 : row0.department = dept := by simpa using hdept0
        rw [h1, hdept])
      subst heq
      have hda := getDepartmentApprover_of_find s dept row0 hfa hsome
      simp only [hda]
      simpa using hact

/-- C9: in every state whose approver table has at most one row per
department (the shape `setDepartmentApprover` maintains), an actor sees a
request in the pending queue exactly when the request is a pending request
of the state and the actor would pass the approve handler's authorization
guard on it: HR/admin see everything pending, everyone else sees precisely
the pending requests of their designated departments. -/
theorem c9_pending_visibility (s : AppState) (actorId : String) (r : LeaveRequest)
    (hdu : deptUnique s) :
    r ∈ getPendingRequests s actorId ↔
      (r ∈ s.requests ∧ r.status = LeaveStatus.pending ∧
        (isHrOrAdmin s actorId || isDesignatedApprover s r.department actorId) = true) := by
  by_cases hha : isHrOrAdmin s actorId = true
  · have hrole : roleOf s actorId = some Role.hr ∨ roleOf s actorId = some Role.admin := by
      unfold isHrOrAdmin at hha
      cases hrl : roleOf s actorId with
      | none =>
        rw [hrl] at hha
        simp at hha
      | some rl =>
        rw [hrl] at hha
        cases rl
        · simp at hha
        · simp at hha
        · exact Or.inl rfl
        · exact Or.inr rfl
        · simp at hha
    have hall : getPendingRequests s actorId = getPendingLeaveRequests s none := by
      rcases hrole with h | h <;> simp [getPendingRequests, h]
    rw [hall]
    unfold getPendingLeaveRequests
    rw [List.mem_filter]
    simp [hha]
  · have hha' : isHrOrAdmin s actorId = false := by
      revert hha
      cases isHrOrAdmin s actorId <;> simp
    have hlhs : getPendingRequests s actorId =
        ((((getAllDepartmentApprovers s).filter
            (fun a => a.approverUserId == actorId)).map (fun a => a.department)).map
          (fun d => getPendingLeaveRequests s (some d))).flatten := by
      unfold getPendingRequests
      unfold isHrOrAdmin at hha'
      cases hrl : roleOf s actorId with
      | none => rfl
      | some rl =>
        rw [hrl] at hha'
        cases rl <;> first | rfl | simp at hha'
    rw [hlhs, hha', Bool.false_or]
    constructor
    · intro hmem
      rw [List.mem_flatten] at hmem
      obtain ⟨l, hl, hrl⟩ := hmem
      rw [List.mem_map] at hl
      obtain ⟨d, hd, rfl⟩ := hl
      rw [List.mem_map] at hd
      obtain ⟨row, hrow, rfl⟩ := hd
      rw [List.mem_filter] at hrow
      obtain ⟨hrowAll, hrowActor⟩ := hrow
      unfold getAllDepartmentApprovers at hrowAll
      rw [List.mem_filter] at hrowAll
      obtain ⟨hrowMem, hrowUser⟩ := hrowAll
      unfold getPendingLeaveRequests at hrl
      rw [List.mem_filter] at hrl
      obtain ⟨hrmem, hrprop⟩ := hrl
      rw [decide_eq_true_eq] at hrprop
      obtain ⟨hrpend, hrdept⟩ := hrprop
      have hrdept' : r.department = row.department := by simpa using hrdept
      refine ⟨hrmem, hrpend, ?_⟩
      exact (isDesignatedApprover_iff s r.department actorId hdu).mpr
        ⟨row, hrowMem, hrdept'.symm, by simpa using hrowActor, hrowUser⟩
    · rintro ⟨hrmem, hrpend, hdes⟩
      obtain ⟨row, hrowMem, hrowDept, hrowAct, hrowUser⟩ :=
        (isDesignatedApprover_iff s r.department actorId hdu).mp hdes
      rw [List.mem_flatten]
      refine ⟨getPendingLeaveRequests s (some row.department), ?_, ?_⟩
      · rw [List.mem_map]
        refine ⟨row.department, ?_, rfl⟩
        rw [List.mem_map]
        refine ⟨row, ?_, rfl⟩
        rw [List.mem_filter]
        refine ⟨?_, by simp [hrowAct]⟩
        unfold getAllDepartmentApprovers
        rw [List.mem_filter]
        exact ⟨hrowMem, hrowUser⟩
      · unfold getPendingLeaveRequests
        rw [List.mem_filter]
        refine ⟨hrmem, ?_⟩
        rw [decide_eq_true_eq]
        exact ⟨hrpend, by simp [hrowDept]⟩

/-- C9 witness: on the worked scenario the designated approver `m1` and HR
`h1` both see the pending request `r1`, and the plain employee `u1` does
not see it and would not be authorized. -/
theorem c9_pending_visibility_witness :
    scenRequest ∈ getPendingRequests scenState "m1" ∧
    scenRequest ∈ getPendingRequests scenState "h1" ∧
    ¬scenRequest ∈ getPendingRequests scenState "u1" := by
  have hdu : deptUnique scenState := by
    intro a1 h1 a2 h2 hd
    simp only [scenState, List.mem_singleton] at h1 h2
    rw [h1, h2]
  refine ⟨?_, ?_, ?_⟩
  · exact (c9_pending_visibility scenState "m1" scenRequest hdu).mpr
      ⟨by decide, by decide, by decide⟩
  · exact (c9_pending_visibility scenState "h1" scenRequest hdu).mpr
      ⟨by decide, by decide, by decide⟩
  · intro hmem
    have h := (c9_pending_visibility scenState "u1" scenRequest hdu).mp hmem
    exact absurd h.2.2 (by decide)
